import Mathlib

/-!
Shallow embedding of `src/caffe2/operators/softmax_op.cc`: the CPU float
Softmax forward pass (`SoftmaxOp<float, CPUContext>::RunOnDevice`) and its
gradient (`SoftmaxGradientOp<float, CPUContext>::RunOnDevice`).

Tensors are dense row-major buffers; a buffer is modelled as a total function
from flat indices to scalars, together with the dimension tuple.  The backward
kernel is embedded over `ℚ` (exact arithmetic, executable); the forward kernel
needs `exp` and is embedded over `ℝ`.

Helpers that the source calls but that live elsewhere in the repository
(`canonical_axis_index`, `size_to_dim`, `size_from_dim` from the tensor core,
the `math::` primitives, `CopySameDevice` and `SoftmaxCPU` from
`softmax_shared.cc`) are modelled from the spec's descriptions of those
collaborators; each such definition says so in its doc comment.
-/

namespace SoftmaxOpCC

/-! ### Axis collapse -/

/-- Modelled from the spec: `canonical_axis_index` (caffe2 tensor core, not
under `src/`).  A signed axis is canonicalized by adding the rank when
negative; valid axes satisfy `-r ≤ a ≤ r`. -/
def canonicalAxis (r : ℕ) (a : ℤ) : ℕ :=
  if 0 ≤ a then a.toNat else (a + r).toNat

/-- Modelled from the spec: `size_to_dim` (caffe2 tensor core, not under
`src/`) — the product of the dimensions strictly before index `k`; the empty
product is 1. -/
def sizeToDim (dims : List ℕ) (k : ℕ) : ℕ := (dims.take k).prod

/-- Modelled from the spec: `size_from_dim` (caffe2 tensor core, not under
`src/`) — the product of the dimensions at and after index `k`; the empty
product is 1. -/
def sizeFromDim (dims : List ℕ) (k : ℕ) : ℕ := (dims.drop k).prod

/-- The collapsed row count `N` of a shape at a signed axis, as both kernels
compute it: `size_to_dim(canonical_axis_index(axis))`. -/
def collapseN (dims : List ℕ) (axis : ℤ) : ℕ :=
  sizeToDim dims (canonicalAxis dims.length axis)

/-- The collapsed column count `D` of a shape at a signed axis, as both
kernels compute it: `size_from_dim(canonical_axis_index(axis))`. -/
def collapseD (dims : List ℕ) (axis : ℤ) : ℕ :=
  sizeFromDim dims (canonicalAxis dims.length axis)

/-! ### Rational tensors and the math primitives used by the backward -/

/-- A dense row-major tensor over `ℚ`: its dimension tuple and its flat
buffer, the latter modelled as a total function on flat indices. -/
structure TensorQ where
  dims : List ℕ
  data : ℕ → ℚ

/-- Modelled from the spec: `math::Dot` (caffe2 math utilities, not under
`src/`) — the dot product of two length-`D` vectors. -/
def dot (D : ℕ) (x y : ℕ → ℚ) : ℚ := ∑ k in Finset.range D, x k * y k

/-- Modelled from the spec: `CopySameDevice` (context copy primitive, not
under `src/`) — copy the first `n` elements of `src` over `dst`, leaving the
rest of `dst` as it was. -/
def copySameDevice (n : ℕ) (src dst : ℕ → ℚ) : ℕ → ℚ :=
  fun t => if t < n then src t else dst t

/-- Modelled from the spec: `math::Gemm` (caffe2 math utilities, not under
`src/`) at the backward's call shape `M = N`, `N = D`, `K = 1`, both operands
untransposed — the scaled rank-1 update
`C[i,j] ← alpha * A[i] * B[j] + beta * C[i,j]` on the flat row-major
buffer `C`. -/
def gemmRank1 (N D : ℕ) (alpha : ℚ) (A B : ℕ → ℚ) (beta : ℚ) (C : ℕ → ℚ) :
    ℕ → ℚ :=
  fun t => if t < N * D then alpha * A (t / D) * B (t % D) + beta * C t else C t

/-- Modelled from the spec: `math::Mul` (caffe2 math utilities, not under
`src/`) — element-wise product of the first `n` elements of two buffers,
written into the output buffer. -/
def mulPrim (n : ℕ) (a b out : ℕ → ℚ) : ℕ → ℚ :=
  fun t => if t < n then a t * b t else out t

/-! ### SoftmaxGradientOp state and run -/

/-- The persistent scratch of a `SoftmaxGradientOp` instance: `scale_` (the
row scratch) and `sum_multiplier_` (the ones vector), each as a current
length plus buffer contents. -/
structure GradState where
  scaleLen : ℕ
  scaleData : ℕ → ℚ
  onesLen : ℕ
  onesData : ℕ → ℚ

/-- Lazy resize of the row scratch (`if (scale_.numel() != N) scale_.Resize(N)`
in the source): the length changes only when it differs from `N`; resizing
does not touch buffer contents. -/
def resizeScale (st : GradState) (N : ℕ) : GradState :=
  if st.scaleLen ≠ N then { st with scaleLen := N } else st

/-- Lazy resize of the ones vector
(`if (sum_multiplier_.numel() != D) { Resize(D); math::Set(D, 1.f, …) }` in
the source): on resize the first `D` entries are set to 1; without resize
nothing changes. -/
def resizeOnes (st : GradState) (D : ℕ) : GradState :=
  if st.onesLen ≠ D then
    { st with onesLen := D,
              onesData := fun t => if t < D then 1 else st.onesData t }
  else st

/-- Result of one backward invocation: the updated instance state, the output
tensor `dX`, and the boolean returned by `RunOnDevice`. -/
structure GradResult where
  st : GradState
  dX : TensorQ
  ok : Bool

/-- `SoftmaxGradientOp<float, CPUContext>::RunOnDevice` from
`src/caffe2/operators/softmax_op.cc`: collapse `Y`'s shape at the configured
axis into `(N, D)`, lazily resize the scratch buffers, resize `dX` like `Y`,
return `true` early when `N = 0`; otherwise copy `dY` into `dX`, compute each
row's dot product `⟨Y[i,·], dY[i,·]⟩` into `scale_`, broadcast-subtract it
from `dX` by a rank-1 `Gemm` against the ones vector with coefficient `-1`,
multiply `dX` element-wise by `Y`, and return `true`.  `dXinit` stands for
the contents of the output buffer before the invocation. -/
def softmaxGradientRun (axis : ℤ) (st : GradState) (Y dY : TensorQ)
    (dXinit : ℕ → ℚ) : GradResult :=
  let a := canonicalAxis Y.dims.length axis
  let N := sizeToDim Y.dims a
  let D := sizeFromDim Y.dims a
  let st2 := resizeOnes (resizeScale st N) D
  if N = 0 then ⟨st2, ⟨Y.dims, dXinit⟩, true⟩
  else
    let numel := Y.dims.prod
    let dX1 := copySameDevice numel dY.data dXinit
    let scaledata : ℕ → ℚ := fun i =>
      if i < N then
        dot D (fun k => Y.data (i * D + k)) (fun k => dY.data (i * D + k))
      else st2.scaleData i
    let dX2 := gemmRank1 N D (-1) scaledata st2.onesData 1 dX1
    let dX3 := mulPrim numel dX2 Y.data dX2
    ⟨{ st2 with scaleData := scaledata }, ⟨Y.dims, dX3⟩, true⟩

/-- Follows the spec's words (for the refinement claim): the explicit nested
loop that subtracts `scale[i]` from every element `dX[i,j]` of the `N × D`
block, elements past the block left alone. -/
def broadcastSubLoop (N D : ℕ) (scale dX : ℕ → ℚ) : ℕ → ℚ :=
  fun t => if t < N * D then dX t - scale (t / D) else dX t

/-! ### Real tensors and the forward pass -/

/-- A dense row-major tensor over `ℝ` (the forward kernel needs `exp`). -/
structure TensorR where
  dims : List ℕ
  data : ℕ → ℝ

/-- The persistent scratch of a `SoftmaxOp` instance: `scale_` and `rowmax_`
(row scratches) and `sum_multiplier_` (the ones vector). -/
structure FwdState where
  scaleLen : ℕ
  scaleData : ℕ → ℝ
  rowmaxLen : ℕ
  rowmaxData : ℕ → ℝ
  onesLen : ℕ
  onesData : ℕ → ℝ

/-- Lazy resize of the forward `scale_` scratch (source lines 17–19). -/
def resizeScaleF (st : FwdState) (N : ℕ) : FwdState :=
  if st.scaleLen ≠ N then { st with scaleLen := N } else st

/-- Lazy resize of the forward `rowmax_` scratch (source lines 20–22). -/
def resizeRowmaxF (st : FwdState) (N : ℕ) : FwdState :=
  if st.rowmaxLen ≠ N then { st with rowmaxLen := N } else st

/-- Lazy resize of the forward ones vector, refilled with 1 exactly on resize
(source lines 23–27). -/
def resizeOnesF (st : FwdState) (D : ℕ) : FwdState :=
  if st.onesLen ≠ D then
    { st with onesLen := D,
              onesData := fun t => if t < D then 1 else st.onesData t }
  else st

/-- The maximum of `f 0, …, f (D-1)` (and `f 0` when `D ≤ 1`). -/
noncomputable def rowMax (D : ℕ) (f : ℕ → ℝ) : ℝ :=
  ((List.range D).map f).foldl max (f 0)

/-- Modelled from the spec: `SoftmaxCPU` (`softmax_shared.cc`, not under
`src/`) with `logits = false` — for each row subtract the row maximum,
exponentiate, and divide by the row's sum of exponentials; flat indices at or
past `N * D` keep the output buffer's previous contents. -/
noncomputable def softmaxCPU (N D : ℕ) (x yinit : ℕ → ℝ) : ℕ → ℝ :=
  fun t =>
    if t < N * D then
      Real.exp (x t - rowMax D (fun k => x (t / D * D + k))) /
        ∑ k in Finset.range D,
          Real.exp (x (t / D * D + k) - rowMax D (fun k2 => x (t / D * D + k2)))
    else yinit t

/-- Result of one forward invocation: the updated instance state, the output
tensor `Y`, and the boolean returned by `RunOnDevice`. -/
structure FwdResult where
  st : FwdState
  Y : TensorR
  ok : Bool

/-- `SoftmaxOp<float, CPUContext>::RunOnDevice` from
`src/caffe2/operators/softmax_op.cc`: collapse `X`'s shape at the configured
axis into `(N, D)`, resize `Y` like `X`, lazily resize the three scratch
buffers (the ones vector refilled with 1 on resize), call `SoftmaxCPU` (which
fills `rowmax_` with the row maxima and `scale_` with the row sums of
exponentials for rows below `N`), and return `true`.  `yinit` stands for the
contents of the output buffer before the invocation. -/
noncomputable def softmaxRun (axis : ℤ) (st : FwdState) (X : TensorR)
    (yinit : ℕ → ℝ) : FwdResult :=
  let a := canonicalAxis X.dims.length axis
  let N := sizeToDim X.dims a
  let D := sizeFromDim X.dims a
  let st3 := resizeOnesF (resizeRowmaxF (resizeScaleF st N) N) D
  let m : ℕ → ℝ := fun i => rowMax D (fun k => X.data (i * D + k))
  let s : ℕ → ℝ := fun i =>
    ∑ k in Finset.range D, Real.exp (X.data (i * D + k) - m i)
  let st4 := { st3 with
      rowmaxData := fun i => if i < N then m i else st3.rowmaxData i,
      scaleData := fun i => if i < N then s i else st3.scaleData i }
  ⟨st4, ⟨X.dims, softmaxCPU N D X.data yinit⟩, true⟩

/-! ### Concrete instances used by the closed witnesses -/

/-- A freshly constructed gradient-operator instance: both scratch buffers
empty. -/
def gradSt0 : GradState := ⟨0, fun _ => 0, 0, fun _ => 0⟩

/-- A freshly constructed forward-operator instance: all scratch buffers
empty. -/
noncomputable def fwdSt0 : FwdState :=
  ⟨0, fun _ => 0, 0, fun _ => 0, 0, fun _ => 0⟩

/-! ### Helper lemmas: row-major indexing -/

theorem idx_lt {N D i j : ℕ} (hi : i < N) (hj : j < D) : i * D + j < N * D :=
  calc i * D + j < i * D + D := Nat.add_lt_add_left hj _
    _ = (i + 1) * D := by ring
    _ ≤ N * D := Nat.mul_le_mul_right D (Nat.succ_le_of_lt hi)

theorem idx_div {D i j : ℕ} (hj : j < D) : (i * D + j) / D = i := by
  have hD : 0 < D := Nat.lt_of_le_of_lt (Nat.zero_le j) hj
  rw [Nat.add_comm, Nat.add_mul_div_right _ _ hD, Nat.div_eq_of_lt hj,
    Nat.zero_add]

theorem idx_mod {D i j : ℕ} (hj : j < D) : (i * D + j) % D = j := by
  rw [Nat.add_comm, Nat.add_mul_mod_self_right]
  exact Nat.mod_eq_of_lt hj

/-! ### Helper lemmas: the lazy resizes -/

theorem resizeScale_scaleLen (st : GradState) (N : ℕ) :
    (resizeScale st N).scaleLen = N := by
  unfold resizeScale; split_ifs with h
  · rfl
  · exact not_not.mp h

theorem resizeScale_onesLen (st : GradState) (N : ℕ) :
    (resizeScale st N).onesLen = st.onesLen := by
  unfold resizeScale; split_ifs <;> rfl

theorem resizeScale_onesData (st : GradState) (N : ℕ) :
    (resizeScale st N).onesData = st.onesData := by
  unfold resizeScale; split_ifs <;> rfl

theorem resizeOnes_onesLen (st : GradState) (D : ℕ) :
    (resizeOnes st D).onesLen = D := by
  unfold resizeOnes; split_ifs with h
  · rfl
  · exact not_not.mp h

theorem resizeOnes_scaleLen (st : GradState) (D : ℕ) :
    (resizeOnes st D).scaleLen = st.scaleLen := by
  unfold resizeOnes; split_ifs <;> rfl

theorem resizeOnes_onesData_one (st : GradState) (D : ℕ)
    (hinv : ∀ t < st.onesLen, st.onesData t = 1) :
    ∀ t < D, (resizeOnes st D).onesData t = 1 := by
  unfold resizeOnes; split_ifs with h
  · intro t ht; simp [ht]
  · intro t ht; exact hinv t (by rw [not_not.mp h]; exact ht)

theorem resizeOnes_noresize (st : GradState) (D : ℕ) (h : st.onesLen = D) :
    resizeOnes st D = st := by
  unfold resizeOnes; rw [if_neg (not_not_intro h)]

theorem resizeOnes_resize (st : GradState) (D : ℕ) (h : st.onesLen ≠ D) :
    (resizeOnes st D).onesData = fun t => if t < D then 1 else st.onesData t := by
  unfold resizeOnes; rw [if_pos h]

/-! ### Helper lemmas: the backward on a 2-D tensor with axis 1 -/

theorem collapse_two (N D : ℕ) :
    canonicalAxis (List.length ([N, D] : List ℕ)) 1 = 1 ∧
      sizeToDim [N, D] 1 = N ∧ sizeFromDim [N, D] 1 = D := by
  refine ⟨rfl, ?_, ?_⟩ <;> simp [sizeToDim, sizeFromDim]

/-- The element-level description of the backward's output on an `N × D`
tensor with the default axis 1: `dX[i,j] = Y[i,j] * (dY[i,j] - c_i)` with
`c_i` the row dot product of `Y` and `dY`. -/
theorem backward2d_dX (N D : ℕ) (st : GradState) (Yd dYd dXinit : ℕ → ℚ)
    (hinv : ∀ t < st.onesLen, st.onesData t = 1)
    {i j : ℕ} (hi : i < N) (hj : j < D) :
    (softmaxGradientRun 1 st ⟨[N, D], Yd⟩ ⟨[N, D], dYd⟩ dXinit).dX.data
        (i * D + j) =
      Yd (i * D + j) *
        (dYd (i * D + j) -
          ∑ k in Finset.range D, Yd (i * D + k) * dYd (i * D + k)) := by
  obtain ⟨hcan, hst, hsf⟩ := collapse_two N D
  have hN0 : ¬ N = 0 := by omega
  have ht : i * D + j < N * D := idx_lt hi hj
  have hones : ∀ t < D, (resizeOnes (resizeScale st N) D).onesData t = 1 := by
    apply resizeOnes_onesData_one
    rw [resizeScale_onesLen, resizeScale_onesData]
    exact hinv
  have hprod : ([N, D] : List ℕ).prod = N * D := by simp
  simp only [softmaxGradientRun, hcan, hst, hsf, hprod, if_neg hN0]
  simp only [mulPrim, gemmRank1, copySameDevice, dot, ht, if_pos,
    if_true, idx_div hj, idx_mod hj, hi, hones j hj]
  ring

/-! ### Helper lemmas: projections of a backward run -/

theorem softmaxGradientRun_ok (axis : ℤ) (st : GradState) (Y dY : TensorQ)
    (dXinit : ℕ → ℚ) : (softmaxGradientRun axis st Y dY dXinit).ok = true := by
  simp only [softmaxGradientRun]
  split <;> rfl

theorem softmaxGradientRun_dims (axis : ℤ) (st : GradState) (Y dY : TensorQ)
    (dXinit : ℕ → ℚ) :
    (softmaxGradientRun axis st Y dY dXinit).dX.dims = Y.dims := by
  simp only [softmaxGradientRun]
  split <;> rfl

theorem softmaxGradientRun_st_onesData (axis : ℤ) (st : GradState)
    (Y dY : TensorQ) (dXinit : ℕ → ℚ) :
    (softmaxGradientRun axis st Y dY dXinit).st.onesData =
      (resizeOnes (resizeScale st (collapseN Y.dims axis))
        (collapseD Y.dims axis)).onesData := by
  simp only [softmaxGradientRun, collapseN, collapseD]
  split <;> rfl

theorem softmaxGradientRun_st_scaleLen (axis : ℤ) (st : GradState)
    (Y dY : TensorQ) (dXinit : ℕ → ℚ) :
    (softmaxGradientRun axis st Y dY dXinit).st.scaleLen =
      collapseN Y.dims axis := by
  simp only [softmaxGradientRun, collapseN]
  split <;> exact (resizeOnes_scaleLen _ _).trans (resizeScale_scaleLen _ _)

theorem softmaxGradientRun_st_onesLen (axis : ℤ) (st : GradState)
    (Y dY : TensorQ) (dXinit : ℕ → ℚ) :
    (softmaxGradientRun axis st Y dY dXinit).st.onesLen =
      collapseD Y.dims axis := by
  simp only [softmaxGradientRun, collapseD]
  split <;> exact resizeOnes_onesLen _ _

/-- The net effect of the backward's two lazy resizes on the ones vector:
untouched when the length already matches, refilled exactly on resize. -/
theorem gradOnes_eq (st : GradState) (N D : ℕ) :
    (resizeOnes (resizeScale st N) D).onesData =
      if st.onesLen = D then st.onesData
      else fun t => if t < D then 1 else st.onesData t := by
  by_cases h : st.onesLen = D
  · rw [if_pos h, resizeOnes_noresize _ _ (by rw [resizeScale_onesLen]; exact h),
      resizeScale_onesData]
  · rw [if_neg h, resizeOnes_resize _ _ (by rw [resizeScale_onesLen]; exact h),
      resizeScale_onesData]

/-! ### Claims about the backward kernel -/

/-- Claim C1: for every `N ≥ 1`, `D ≥ 1` and all `(N, D)` matrices `Y` and
`dY`, the backward produces `dX` of shape `(N, D)` with
`dX[i,j] = Y[i,j] * (dY[i,j] - c_i)` where `c_i = Σ_k Y[i,k] * dY[i,k]`,
computed by copying `dY` into `dX`, taking each row's dot product, a rank-1
broadcast subtraction, and an element-wise multiply by `Y` (the pipeline of
`softmaxGradientRun`). -/
theorem softmaxGradient_formula (N D : ℕ) (st : GradState)
    (Yd dYd dXinit : ℕ → ℚ) (hN : 1 ≤ N) (hD : 1 ≤ D)
    (hinv : ∀ t < st.onesLen, st.onesData t = 1) :
    (softmaxGradientRun 1 st ⟨[N, D], Yd⟩ ⟨[N, D], dYd⟩ dXinit).dX.dims =
        [N, D] ∧
      ∀ i < N, ∀ j < D,
        (softmaxGradientRun 1 st ⟨[N, D], Yd⟩ ⟨[N, D], dYd⟩ dXinit).dX.data
            (i * D + j) =
          Yd (i * D + j) *
            (dYd (i * D + j) -
              ∑ k in Finset.range D, Yd (i * D + k) * dYd (i * D + k)) :=
  ⟨softmaxGradientRun_dims 1 st ⟨[N, D], Yd⟩ ⟨[N, D], dYd⟩ dXinit,
    fun _ hi _ hj => backward2d_dX N D st Yd dYd dXinit hinv hi hj⟩

theorem softmaxGradient_formula_witness :
    ((1 : ℕ) ≤ 1 ∧ (1 : ℕ) ≤ 2) ∧
      (softmaxGradientRun 1 gradSt0 ⟨[1, 2], fun _ => 1/2⟩
          ⟨[1, 2], fun t => if t = 0 then 1 else 0⟩ (fun _ => 0)).dX.dims =
        [1, 2] :=
  ⟨⟨by decide, by decide⟩,
    (softmaxGradient_formula 1 2 gradSt0 (fun _ => 1/2)
        (fun t => if t = 0 then 1 else 0) (fun _ => 0) (by decide) (by decide)
        (fun t ht => absurd ht (Nat.not_lt_zero t))).1⟩

/-- Claim C2: if every row of `Y` sums to 1 then every row of the backward's
output `dX` sums to 0 (exact arithmetic). -/
theorem softmaxGradient_row_sum_zero (N D : ℕ) (st : GradState)
    (Yd dYd dXinit : ℕ → ℚ) (hN : 1 ≤ N) (hD : 1 ≤ D)
    (hinv : ∀ t < st.onesLen, st.onesData t = 1)
    (hrow : ∀ i < N, ∑ j in Finset.range D, Yd (i * D + j) = 1) :
    ∀ i < N,
      ∑ j in Finset.range D,
        (softmaxGradientRun 1 st ⟨[N, D], Yd⟩ ⟨[N, D], dYd⟩ dXinit).dX.data
          (i * D + j) = 0 := by
  intro i hi
  rw [Finset.sum_congr rfl fun j hj =>
    backward2d_dX N D st Yd dYd dXinit hinv hi (Finset.mem_range.mp hj)]
  simp only [mul_sub]
  rw [Finset.sum_sub_distrib, ← Finset.sum_mul, hrow i hi, one_mul]
  exact sub_self _

theorem softmaxGradient_row_sum_zero_witness :
    ((1 : ℕ) ≤ 1 ∧ (1 : ℕ) ≤ 2) ∧
      ∑ j in Finset.range 2,
        (softmaxGradientRun 1 gradSt0 ⟨[1, 2], fun _ => 1/2⟩
            ⟨[1, 2], fun t => if t = 0 then 1 else 0⟩ (fun _ => 0)).dX.data
          (0 * 2 + j) = 0 :=
  ⟨⟨by decide, by decide⟩,
    softmaxGradient_row_sum_zero 1 2 gradSt0 (fun _ => 1/2)
      (fun t => if t = 0 then 1 else 0) (fun _ => 0) (by decide) (by decide)
      (fun t ht => absurd ht (Nat.not_lt_zero t))
      (by intro i _; norm_num [Finset.sum_range_succ]) 0 (by decide)⟩

/-- Claim C3: if every row of `Y` sums to 1 and `dY` is constant with value
`k` along row `i`, then the backward's output vanishes on row `i` (exact
arithmetic), because `c_i = k`. -/
theorem softmaxGradient_uniform_dY_zero (N D : ℕ) (st : GradState)
    (Yd dYd dXinit : ℕ → ℚ) (k : ℚ) (hN : 1 ≤ N) (hD : 1 ≤ D)
    (hinv : ∀ t < st.onesLen, st.onesData t = 1)
    (hrow : ∀ i < N, ∑ j in Finset.range D, Yd (i * D + j) = 1) :
    ∀ i < N, (∀ j < D, dYd (i * D + j) = k) →
      ∀ j < D,
        (softmaxGradientRun 1 st ⟨[N, D], Yd⟩ ⟨[N, D], dYd⟩ dXinit).dX.data
          (i * D + j) = 0 := by
  intro i hi hk j hj
  rw [backward2d_dX N D st Yd dYd dXinit hinv hi hj, hk j hj]
  have hc : ∑ kk in Finset.range D, Yd (i * D + kk) * dYd (i * D + kk) = k := by
    rw [Finset.sum_congr rfl fun kk hkk => by
      rw [hk kk (Finset.mem_range.mp hkk)]]
    rw [← Finset.sum_mul, hrow i hi, one_mul]
  rw [hc, sub_self, mul_zero]

theorem softmaxGradient_uniform_dY_zero_witness :
    ((1 : ℕ) ≤ 1 ∧ (1 : ℕ) ≤ 3) ∧
      (softmaxGradientRun 1 gradSt0 ⟨[1, 3], fun t => if t = 0 then 1/2 else 1/4⟩
          ⟨[1, 3], fun _ => 5⟩ (fun _ => 0)).dX.data (0 * 3 + 1) = 0 :=
  ⟨⟨by decide, by decide⟩,
    softmaxGradient_uniform_dY_zero 1 3 gradSt0
      (fun t => if t = 0 then 1/2 else 1/4) (fun _ => 5) (fun _ => 0) 5
      (by decide) (by decide) (fun t ht => absurd ht (Nat.not_lt_zero t))
      (by intro i hi
          have hi0 : i = 0 := by omega
          subst hi0
          norm_num [Finset.sum_range_succ]) 0 (by decide)
      (fun j _ => rfl) 1 (by decide)⟩

/-- Claim C4 counterexample: the backward performs no shape check — with `Y`
of shape `(1, 2)` and `dY` of the different shape `(1, 3)` the invocation
returns `true`; no precondition failure is surfaced to the caller. -/
theorem softmaxGradient_no_shape_check_cex :
    (⟨[1, 3], fun _ => 1⟩ : TensorQ).dims ≠
        (⟨[1, 2], fun _ => 1/2⟩ : TensorQ).dims ∧
      (softmaxGradientRun 1 gradSt0 ⟨[1, 2], fun _ => 1/2⟩
        ⟨[1, 3], fun _ => 1⟩ (fun _ => 0)).ok = true :=
  ⟨by decide,
    softmaxGradientRun_ok 1 gradSt0 ⟨[1, 2], fun _ => 1/2⟩
      ⟨[1, 3], fun _ => 1⟩ (fun _ => 0)⟩

/-- Claim C4 amended: the backward does not validate `dY`'s shape against
`Y`'s.  Even when the shapes differ, the invocation reports success and `dX`
is shaped like `Y` (the kernel simply reads `dY`'s buffer through `Y`'s
collapsed shape). -/
theorem softmaxGradient_shape_mismatch_succeeds (axis : ℤ) (st : GradState)
    (Y dY : TensorQ) (dXinit : ℕ → ℚ) (h : dY.dims ≠ Y.dims) :
    (softmaxGradientRun axis st Y dY dXinit).ok = true ∧
      (softmaxGradientRun axis st Y dY dXinit).dX.dims = Y.dims :=
  ⟨softmaxGradientRun_ok axis st Y dY dXinit,
    softmaxGradientRun_dims axis st Y dY dXinit⟩

theorem softmaxGradient_shape_mismatch_succeeds_witness :
    (⟨[1, 3], fun _ => 1⟩ : TensorQ).dims ≠
        (⟨[1, 2], fun _ => 1/4⟩ : TensorQ).dims ∧
      (softmaxGradientRun 1 gradSt0 ⟨[1, 2], fun _ => 1/4⟩
          ⟨[1, 3], fun _ => 1⟩ (fun _ => 2)).dX.dims = [1, 2] :=
  ⟨by decide,
    (softmaxGradient_shape_mismatch_succeeds 1 gradSt0 ⟨[1, 2], fun _ => 1/4⟩
      ⟨[1, 3], fun _ => 1⟩ (fun _ => 2) (by decide)).2⟩

/-- Claim C5: when the collapsed row count `N` is 0 the backward returns
success with `dX` resized to `Y`'s shape and its buffer untouched — no copy,
dot product, rank-1 update or multiply is performed. -/
theorem softmaxGradient_empty_batch (axis : ℤ) (st : GradState)
    (Y dY : TensorQ) (dXinit : ℕ → ℚ)
    (h : sizeToDim Y.dims (canonicalAxis Y.dims.length axis) = 0) :
    (softmaxGradientRun axis st Y dY dXinit).ok = true ∧
      (softmaxGradientRun axis st Y dY dXinit).dX.dims = Y.dims ∧
      (softmaxGradientRun axis st Y dY dXinit).dX.data = dXinit := by
  simp only [softmaxGradientRun, h, if_pos]
  exact ⟨trivial, trivial, trivial⟩

theorem softmaxGradient_empty_batch_witness :
    sizeToDim ([0, 2] : List ℕ)
        (canonicalAxis (List.length ([0, 2] : List ℕ)) 1) = 0 ∧
      (softmaxGradientRun 1 gradSt0 ⟨[0, 2], fun _ => 0⟩ ⟨[0, 2], fun _ => 0⟩
          (fun _ => 5)).dX.data = (fun _ => (5 : ℚ)) :=
  ⟨by decide,
    (softmaxGradient_empty_batch 1 gradSt0 ⟨[0, 2], fun _ => 0⟩
      ⟨[0, 2], fun _ => 0⟩ (fun _ => 5) (by decide)).2.2⟩

/-- Claim C7: the rank-1 `Gemm` against an all-ones vector with coefficient
`-1` and `beta = 1`, as the backward uses it for the broadcast subtraction,
computes exactly the explicit nested loop that subtracts `scale[i]` from
every `dX[i,j]`. -/
theorem gemm_rank1_eq_loop (N D : ℕ) (scale ones dX : ℕ → ℚ)
    (hN : 1 ≤ N) (hD : 1 ≤ D) (hones : ∀ t < D, ones t = 1) :
    gemmRank1 N D (-1) scale ones 1 dX = broadcastSubLoop N D scale dX := by
  funext t
  unfold gemmRank1 broadcastSubLoop
  split_ifs with h
  · rw [hones (t % D) (Nat.mod_lt t hD)]
    ring
  · rfl

theorem gemm_rank1_eq_loop_witness :
    ((1 : ℕ) ≤ 1 ∧ (1 : ℕ) ≤ 1) ∧
      gemmRank1 1 1 (-1) (fun _ => 2) (fun _ => 1) 1 (fun _ => 3) =
        broadcastSubLoop 1 1 (fun _ => 2) (fun _ => 3) :=
  ⟨⟨by decide, by decide⟩,
    gemm_rank1_eq_loop 1 1 (fun _ => 2) (fun _ => 1) (fun _ => 3)
      (by decide) (by decide) (fun _ _ => rfl)⟩

/-! ### Helper lemmas: the forward's lazy resizes and run projections -/

theorem resizeScaleF_scaleLen (st : FwdState) (N : ℕ) :
    (resizeScaleF st N).scaleLen = N := by
  unfold resizeScaleF; split_ifs with h
  · rfl
  · exact not_not.mp h

theorem resizeScaleF_rowmaxLen (st : FwdState) (N : ℕ) :
    (resizeScaleF st N).rowmaxLen = st.rowmaxLen := by
  unfold resizeScaleF; split_ifs <;> rfl

theorem resizeScaleF_onesLen (st : FwdState) (N : ℕ) :
    (resizeScaleF st N).onesLen = st.onesLen := by
  unfold resizeScaleF; split_ifs <;> rfl

theorem resizeScaleF_onesData (st : FwdState) (N : ℕ) :
    (resizeScaleF st N).onesData = st.onesData := by
  unfold resizeScaleF; split_ifs <;> rfl

theorem resizeRowmaxF_rowmaxLen (st : FwdState) (N : ℕ) :
    (resizeRowmaxF st N).rowmaxLen = N := by
  unfold resizeRowmaxF; split_ifs with h
  · rfl
  · exact not_not.mp h

theorem resizeRowmaxF_scaleLen (st : FwdState) (N : ℕ) :
    (resizeRowmaxF st N).scaleLen = st.scaleLen := by
  unfold resizeRowmaxF; split_ifs <;> rfl

theorem resizeRowmaxF_onesLen (st : FwdState) (N : ℕ) :
    (resizeRowmaxF st N).onesLen = st.onesLen := by
  unfold resizeRowmaxF; split_ifs <;> rfl

theorem resizeRowmaxF_onesData (st : FwdState) (N : ℕ) :
    (resizeRowmaxF st N).onesData = st.onesData := by
  unfold resizeRowmaxF; split_ifs <;> rfl

theorem resizeOnesF_onesLen (st : FwdState) (D : ℕ) :
    (resizeOnesF st D).onesLen = D := by
  unfold resizeOnesF; split_ifs with h
  · rfl
  · exact not_not.mp h

theorem resizeOnesF_scaleLen (st : FwdState) (D : ℕ) :
    (resizeOnesF st D).scaleLen = st.scaleLen := by
  unfold resizeOnesF; split_ifs <;> rfl

theorem resizeOnesF_rowmaxLen (st : FwdState) (D : ℕ) :
    (resizeOnesF st D).rowmaxLen = st.rowmaxLen := by
  unfold resizeOnesF; split_ifs <;> rfl

theorem resizeOnesF_noresize (st : FwdState) (D : ℕ) (h : st.onesLen = D) :
    resizeOnesF st D = st := by
  unfold resizeOnesF; rw [if_neg (not_not_intro h)]

theorem resizeOnesF_resize (st : FwdState) (D : ℕ) (h : st.onesLen ≠ D) :
    (resizeOnesF st D).onesData =
      fun t => if t < D then 1 else st.onesData t := by
  unfold resizeOnesF; rw [if_pos h]

/-- The net effect of the forward's three lazy resizes on the ones vector:
untouched when the length already matches, refilled exactly on resize. -/
theorem fwdOnes_eq (st : FwdState) (N D : ℕ) :
    (resizeOnesF (resizeRowmaxF (resizeScaleF st N) N) D).onesData =
      if st.onesLen = D then st.onesData
      else fun t => if t < D then 1 else st.onesData t := by
  have hlen : (resizeRowmaxF (resizeScaleF st N) N).onesLen = st.onesLen := by
    rw [resizeRowmaxF_onesLen, resizeScaleF_onesLen]
  have hdata : (resizeRowmaxF (resizeScaleF st N) N).onesData = st.onesData := by
    rw [resizeRowmaxF_onesData, resizeScaleF_onesData]
  by_cases h : st.onesLen = D
  · rw [if_pos h, resizeOnesF_noresize _ _ (by rw [hlen]; exact h), hdata]
  · rw [if_neg h, resizeOnesF_resize _ _ (by rw [hlen]; exact h), hdata]

theorem softmaxRun_ok (axis : ℤ) (st : FwdState) (X : TensorR)
    (yinit : ℕ → ℝ) : (softmaxRun axis st X yinit).ok = true := rfl

theorem softmaxRun_Ydims (axis : ℤ) (st : FwdState) (X : TensorR)
    (yinit : ℕ → ℝ) : (softmaxRun axis st X yinit).Y.dims = X.dims := rfl

theorem softmaxRun_Ydata (axis : ℤ) (st : FwdState) (X : TensorR)
    (yinit : ℕ → ℝ) :
    (softmaxRun axis st X yinit).Y.data =
      softmaxCPU (collapseN X.dims axis) (collapseD X.dims axis) X.data
        yinit := rfl

theorem softmaxRun_st_scaleLen (axis : ℤ) (st : FwdState) (X : TensorR)
    (yinit : ℕ → ℝ) :
    (softmaxRun axis st X yinit).st.scaleLen = collapseN X.dims axis := by
  show (resizeOnesF (resizeRowmaxF (resizeScaleF st (collapseN X.dims axis))
      (collapseN X.dims axis)) (collapseD X.dims axis)).scaleLen =
    collapseN X.dims axis
  rw [resizeOnesF_scaleLen, resizeRowmaxF_scaleLen, resizeScaleF_scaleLen]

theorem softmaxRun_st_rowmaxLen (axis : ℤ) (st : FwdState) (X : TensorR)
    (yinit : ℕ → ℝ) :
    (softmaxRun axis st X yinit).st.rowmaxLen = collapseN X.dims axis := by
  show (resizeOnesF (resizeRowmaxF (resizeScaleF st (collapseN X.dims axis))
      (collapseN X.dims axis)) (collapseD X.dims axis)).rowmaxLen =
    collapseN X.dims axis
  rw [resizeOnesF_rowmaxLen, resizeRowmaxF_rowmaxLen]

theorem softmaxRun_st_onesLen (axis : ℤ) (st : FwdState) (X : TensorR)
    (yinit : ℕ → ℝ) :
    (softmaxRun axis st X yinit).st.onesLen = collapseD X.dims axis := by
  show (resizeOnesF (resizeRowmaxF (resizeScaleF st (collapseN X.dims axis))
      (collapseN X.dims axis)) (collapseD X.dims axis)).onesLen =
    collapseD X.dims axis
  exact resizeOnesF_onesLen _ _

theorem softmaxRun_st_onesData (axis : ℤ) (st : FwdState) (X : TensorR)
    (yinit : ℕ → ℝ) :
    (softmaxRun axis st X yinit).st.onesData =
      (resizeOnesF (resizeRowmaxF (resizeScaleF st (collapseN X.dims axis))
        (collapseN X.dims axis)) (collapseD X.dims axis)).onesData := rfl

/-! ### Claims about the axis collapse and the forward kernel -/

/-- Claim C6: for a shape `(d0, …, d_{r-1})` and an axis `a` with
`-r ≤ a ≤ r`, the canonical axis equals `a` when `a ≥ 0` and `a + r` when
`a < 0`; `N` is the product of the dimensions strictly before the canonical
axis and `D` the product of those at and after it; empty products are 1 and
`N * D` equals the total element count (independent of element values, as
only the shape enters). -/
theorem axis_collapse_spec (dims : List ℕ) (a : ℤ)
    (h1 : -(dims.length : ℤ) ≤ a) (h2 : a ≤ (dims.length : ℤ)) :
    (0 ≤ a → (canonicalAxis dims.length a : ℤ) = a) ∧
      (a < 0 → (canonicalAxis dims.length a : ℤ) = a + dims.length) ∧
      collapseN dims a = (dims.take (canonicalAxis dims.length a)).prod ∧
      collapseD dims a = (dims.drop (canonicalAxis dims.length a)).prod ∧
      sizeToDim dims 0 = 1 ∧
      sizeFromDim dims dims.length = 1 ∧
      collapseN dims a * collapseD dims a = dims.prod := by
  refine ⟨?_, ?_, rfl, rfl, rfl, ?_, ?_⟩
  · intro ha
    unfold canonicalAxis
    rw [if_pos ha, Int.toNat_of_nonneg ha]
  · intro ha
    unfold canonicalAxis
    rw [if_neg (not_le.mpr ha), Int.toNat_of_nonneg (by omega)]
  · unfold sizeFromDim
    rw [List.drop_length]
    rfl
  · exact List.prod_take_mul_prod_drop dims _

theorem axis_collapse_spec_witness :
    (-(([2, 3] : List ℕ).length : ℤ) ≤ -1 ∧
        (-1 : ℤ) ≤ (([2, 3] : List ℕ).length : ℤ)) ∧
      ((-1 : ℤ) < 0 →
        (canonicalAxis ([2, 3] : List ℕ).length (-1) : ℤ) =
          -1 + ([2, 3] : List ℕ).length) ∧
      collapseN [2, 3] (-1) * collapseD [2, 3] (-1) =
        ([2, 3] : List ℕ).prod :=
  ⟨⟨by decide, by decide⟩,
    (axis_collapse_spec [2, 3] (-1) (by decide) (by decide)).2.1,
    (axis_collapse_spec [2, 3] (-1) (by decide) (by decide)).2.2.2.2.2.2⟩

/-- Claim C10: on every input on which they run, both `RunOnDevice`
implementations return `true`; no code path signals failure through the
boolean return value. -/
theorem runOnDevice_returns_true (axisF : ℤ) (stF : FwdState) (X : TensorR)
    (yinit : ℕ → ℝ) (axisG : ℤ) (stG : GradState) (Y dY : TensorQ)
    (dXinit : ℕ → ℚ) :
    (softmaxRun axisF stF X yinit).ok = true ∧
      (softmaxGradientRun axisG stG Y dY dXinit).ok = true :=
  ⟨softmaxRun_ok axisF stF X yinit,
    softmaxGradientRun_ok axisG stG Y dY dXinit⟩

/-- Element-level description of the forward kernel on the collapsed block:
row `i`, column `j` holds `exp(x[i,j] - m_i) / Σ_k exp(x[i,k] - m_i)` with
`m_i` the row maximum. -/
theorem softmaxCPU_elt (N D : ℕ) (x yinit : ℕ → ℝ) {i j : ℕ}
    (hi : i < N) (hj : j < D) :
    softmaxCPU N D x yinit (i * D + j) =
      Real.exp (x (i * D + j) - rowMax D (fun k => x (i * D + k))) /
        ∑ k in Finset.range D,
          Real.exp (x (i * D + k) - rowMax D (fun k2 => x (i * D + k2))) := by
  unfold softmaxCPU
  rw [if_pos (idx_lt hi hj)]
  simp only [idx_div hj]

/-- Claim C9: every element of the forward's output lies in `[0, 1]`, each
row sums to 1 (exactly, in the real-number model), and each element equals
`exp(X[i,j] - m_i) / Σ_k exp(X[i,k] - m_i)` with `m_i` the row maximum. -/
theorem softmax_forward_range_sum (axis : ℤ) (st : FwdState) (X : TensorR)
    (yinit : ℕ → ℝ) (i j : ℕ) (hi : i < collapseN X.dims axis)
    (hj : j < collapseD X.dims axis) :
    (softmaxRun axis st X yinit).Y.data (i * collapseD X.dims axis + j) =
        Real.exp (X.data (i * collapseD X.dims axis + j) -
            rowMax (collapseD X.dims axis)
              (fun k => X.data (i * collapseD X.dims axis + k))) /
          ∑ k in Finset.range (collapseD X.dims axis),
            Real.exp (X.data (i * collapseD X.dims axis + k) -
              rowMax (collapseD X.dims axis)
                (fun k2 => X.data (i * collapseD X.dims axis + k2))) ∧
      0 ≤ (softmaxRun axis st X yinit).Y.data
          (i * collapseD X.dims axis + j) ∧
      (softmaxRun axis st X yinit).Y.data
          (i * collapseD X.dims axis + j) ≤ 1 ∧
      ∑ jj in Finset.range (collapseD X.dims axis),
        (softmaxRun axis st X yinit).Y.data
          (i * collapseD X.dims axis + jj) = 1 := by
  set D := collapseD X.dims axis with hDdef
  have hY : ∀ jj, jj < D →
      (softmaxRun axis st X yinit).Y.data (i * D + jj) =
        Real.exp (X.data (i * D + jj) -
            rowMax D (fun k => X.data (i * D + k))) /
          ∑ k in Finset.range D,
            Real.exp (X.data (i * D + k) -
              rowMax D (fun k2 => X.data (i * D + k2))) := by
    intro jj hjj
    rw [softmaxRun_Ydata]
    exact softmaxCPU_elt _ _ _ _ hi hjj
  have hS : (0:ℝ) < ∑ k in Finset.range D,
      Real.exp (X.data (i * D + k) -
        rowMax D (fun k2 => X.data (i * D + k2))) :=
    Finset.sum_pos (fun k _ => Real.exp_pos _) ⟨j, Finset.mem_range.mpr hj⟩
  refine ⟨hY j hj, ?_, ?_, ?_⟩
  · rw [hY j hj]
    exact div_nonneg (Real.exp_pos _).le hS.le
  · rw [hY j hj, div_le_one hS]
    have hterm : ∀ k ∈ Finset.range D,
        (0:ℝ) ≤ Real.exp (X.data (i * D + k) -
          rowMax D (fun k2 => X.data (i * D + k2))) :=
      fun k _ => (Real.exp_pos _).le
    exact Finset.single_le_sum hterm (Finset.mem_range.mpr hj)
  · rw [Finset.sum_congr rfl fun jj hjj => hY jj (Finset.mem_range.mp hjj),
      ← Finset.sum_div]
    exact div_self hS.ne'

theorem softmax_forward_range_sum_witness :
    ((0:ℕ) < collapseN ([1, 1] : List ℕ) 1 ∧
        (0:ℕ) < collapseD ([1, 1] : List ℕ) 1) ∧
      0 ≤ (softmaxRun 1 fwdSt0 ⟨[1, 1], fun _ => 0⟩ (fun _ => 0)).Y.data
          (0 * collapseD ([1, 1] : List ℕ) 1 + 0) ∧
      (softmaxRun 1 fwdSt0 ⟨[1, 1], fun _ => 0⟩ (fun _ => 0)).Y.data
          (0 * collapseD ([1, 1] : List ℕ) 1 + 0) ≤ 1 :=
  ⟨⟨by decide, by decide⟩,
    (softmax_forward_range_sum 1 fwdSt0 ⟨[1, 1], fun _ => 0⟩ (fun _ => 0) 0 0
        (by decide) (by decide)).2.1,
    (softmax_forward_range_sum 1 fwdSt0 ⟨[1, 1], fun _ => 0⟩ (fun _ => 0) 0 0
        (by decide) (by decide)).2.2.1⟩

/-- Claim C8: after any forward or backward invocation with collapsed shape
`(N, D)`, the row scratch buffers have length `N` and the ones vector has
length `D` with every element 1 (given it held only 1s on entry, which is
vacuous for a fresh instance); the ones vector is untouched when its length
already was `D` and is refilled with 1s exactly when it is resized. -/
theorem scratch_invariant (axisF : ℤ) (stF : FwdState) (X : TensorR)
    (yinit : ℕ → ℝ) (axisG : ℤ) (stG : GradState) (Y dY : TensorQ)
    (dXinit : ℕ → ℚ)
    (hF : ∀ t < stF.onesLen, stF.onesData t = 1)
    (hG : ∀ t < stG.onesLen, stG.onesData t = 1) :
    ((softmaxRun axisF stF X yinit).st.scaleLen = collapseN X.dims axisF ∧
      (softmaxRun axisF stF X yinit).st.rowmaxLen = collapseN X.dims axisF ∧
      (softmaxRun axisF stF X yinit).st.onesLen = collapseD X.dims axisF ∧
      (∀ t < collapseD X.dims axisF,
        (softmaxRun axisF stF X yinit).st.onesData t = 1) ∧
      (stF.onesLen = collapseD X.dims axisF →
        (softmaxRun axisF stF X yinit).st.onesData = stF.onesData) ∧
      (stF.onesLen ≠ collapseD X.dims axisF →
        (softmaxRun axisF stF X yinit).st.onesData =
          fun t => if t < collapseD X.dims axisF then 1
            else stF.onesData t)) ∧
    ((softmaxGradientRun axisG stG Y dY dXinit).st.scaleLen =
        collapseN Y.dims axisG ∧
      (softmaxGradientRun axisG stG Y dY dXinit).st.onesLen =
        collapseD Y.dims axisG ∧
      (∀ t < collapseD Y.dims axisG,
        (softmaxGradientRun axisG stG Y dY dXinit).st.onesData t = 1) ∧
      (stG.onesLen = collapseD Y.dims axisG →
        (softmaxGradientRun axisG stG Y dY dXinit).st.onesData =
          stG.onesData) ∧
      (stG.onesLen ≠ collapseD Y.dims axisG →
        (softmaxGradientRun axisG stG Y dY dXinit).st.onesData =
          fun t => if t < collapseD Y.dims axisG then 1
            else stG.onesData t)) := by
  have hFdata : (softmaxRun axisF stF X yinit).st.onesData =
      if stF.onesLen = collapseD X.dims axisF then stF.onesData
      else fun t => if t < collapseD X.dims axisF then 1
        else stF.onesData t := by
    rw [softmaxRun_st_onesData, fwdOnes_eq]
  have hGdata : (softmaxGradientRun axisG stG Y dY dXinit).st.onesData =
      if stG.onesLen = collapseD Y.dims axisG then stG.onesData
      else fun t => if t < collapseD Y.dims axisG then 1
        else stG.onesData t := by
    rw [softmaxGradientRun_st_onesData, gradOnes_eq]
  refine ⟨⟨softmaxRun_st_scaleLen _ _ _ _, softmaxRun_st_rowmaxLen _ _ _ _,
      softmaxRun_st_onesLen _ _ _ _, ?_, ?_, ?_⟩,
    softmaxGradientRun_st_scaleLen _ _ _ _ _,
      softmaxGradientRun_st_onesLen _ _ _ _ _, ?_, ?_, ?_⟩
  · intro t ht
    rw [hFdata]
    split_ifs with h
    · exact hF t (by rw [h]; exact ht)
    · simp [ht]
  · intro h; rw [hFdata, if_pos h]
  · intro h; rw [hFdata, if_neg h]
  · intro t ht
    rw [hGdata]
    split_ifs with h
    · exact hG t (by rw [h]; exact ht)
    · simp [ht]
  · intro h; rw [hGdata, if_pos h]
  · intro h; rw [hGdata, if_neg h]

theorem scratch_invariant_witness :
    (softmaxRun 1 fwdSt0 ⟨[2, 3], fun _ => 0⟩ (fun _ => 0)).st.onesLen =
        collapseD ([2, 3] : List ℕ) 1 ∧
      (softmaxGradientRun 1 gradSt0 ⟨[2, 3], fun _ => 0⟩
          ⟨[2, 3], fun _ => 0⟩ (fun _ => 0)).st.scaleLen =
        collapseN ([2, 3] : List ℕ) 1 :=
  ⟨(scratch_invariant 1 fwdSt0 ⟨[2, 3], fun _ => 0⟩ (fun _ => 0) 1 gradSt0
      ⟨[2, 3], fun _ => 0⟩ ⟨[2, 3], fun _ => 0⟩ (fun _ => 0)
      (fun t ht => absurd ht (Nat.not_lt_zero t))
      (fun t ht => absurd ht (Nat.not_lt_zero t))).1.2.2.1,
    (scratch_invariant 1 fwdSt0 ⟨[2, 3], fun _ => 0⟩ (fun _ => 0) 1 gradSt0
      ⟨[2, 3], fun _ => 0⟩ ⟨[2, 3], fun _ => 0⟩ (fun _ => 0)
      (fun t ht => absurd ht (Nat.not_lt_zero t))
      (fun t ht => absurd ht (Nat.not_lt_zero t))).2.1⟩

end SoftmaxOpCC
